import Mathlib

/-!
Shallow embedding of `cpv/region_p.py` from the combined-pvalues repository:
the site/region data model, the forward-cursor region matcher
(`_get_ps_in_regions`), the coverage estimator (`get_total_coverage`), the
Sidak correction (`sidak`), the truncated-product statistic (`calc_w`), the
two Monte-Carlo simulation loops (`sim`, `sl_sim`), the correlated sampler
(`gen_correlated`) and the orchestration (`region_p`), together with theorems
about their behaviour.

External collaborators that live outside this repository (`bediter`, `acf`,
`gen_sigma_matrix`, `stouffer_liptak`, numpy's Cholesky factorization and
scipy's normal cdf/quantile) are taken as oracle parameters of the embedded
functions.
-/

namespace Cpv

/-- A parsed record of the p-value BED stream, as produced by the external
`bediter` (a dict with keys chrom, start, end, p).  The `end` field is named
`stop` because `end` is a reserved word in Lean. -/
structure Bed where
  chrom : String
  start : Nat
  stop : Nat
  p : ℝ

/-- A parsed line of the region BED file: `toks = region_line.split("\t")`,
`rchrom = toks[0]`, `rstart, rend = map(int, toks[1:3])`, with the raw line
kept for the output.  The code parses every line of the region file, comment
lines included; a comment line is one whose raw line (equivalently, whose
first token `chrom`) starts with the character '#'. -/
structure Region where
  line : String
  chrom : String
  start : Nat
  stop : Nat

/-- Fatal Python outcomes of the modelled code paths: TypeError (subscripting
the `None` end-of-stream sentinel), AssertionError (a failed `assert`),
NameError (reading the loop variable `nr` when the region file had no lines),
ZeroDivisionError (the deliberate `1/0` placeholders) and SystemExit
(`sys.exit()` on a region file with no non-comment lines). -/
inductive RunError where
  | typeError
  | assertionError
  | nameError
  | zeroDivisionError
  | systemExit
deriving DecidableEq

/-- Python tuple comparison `(rchrom, rend) >= (pchrom, pend)`: lexicographic,
strings compared by code point. -/
def tupleGE (rchrom : String) (rend : Nat) (pchrom : String) (pend : Nat) : Prop :=
  pchrom < rchrom ∨ (pchrom = rchrom ∧ pend ≤ rend)

instance (rchrom : String) (rend : Nat) (pchrom : String) (pend : Nat) :
    Decidable (tupleGE rchrom rend pchrom pend) :=
  inferInstanceAs (Decidable (_ ∨ _))

/-- The first `while` loop of `_get_ps_in_regions`: starting from the current
record `prow` with remaining stream `rest`, advance while the record's
chromosome differs from the region's or its start is below the region's
start.  `piter.next()` on the exhausted stream yields the `None` sentinel,
i.e. the cursor `(none, [])`, and the loop then breaks. -/
def advanceCursor (rchrom : String) (rstart : Nat) :
    Bed → List Bed → Option Bed × List Bed
  | prow, [] =>
    if prow.chrom ≠ rchrom ∨ prow.start < rstart then (none, [])
    else (some prow, [])
  | prow, b :: t =>
    if prow.chrom ≠ rchrom ∨ prow.start < rstart then advanceCursor rchrom rstart b t
    else (some prow, b :: t)

/-- The second `while` loop of `_get_ps_in_regions`: collect consecutive
records while `(rchrom, rend) >= (prow["chrom"], prow["end"])`, advancing the
cursor after each collected record and breaking when the sentinel is
drawn.  Returns the collected records together with the cursor left behind. -/
def collectRecords (rchrom : String) (rend : Nat) :
    Bed → List Bed → List Bed × Option Bed × List Bed
  | prow, [] =>
    if tupleGE rchrom rend prow.chrom prow.stop then ([prow], none, [])
    else ([], some prow, [])
  | prow, b :: t =>
    if tupleGE rchrom rend prow.chrom prow.stop then
      let r := collectRecords rchrom rend b t
      (prow :: r.1, r.2)
    else ([], some prow, b :: t)

/-- The `for nr, region_line in enumerate(...)` body of `_get_ps_in_regions`
iterated over the region lines, threading the cursor.  Evaluating either
`while` condition with the `None` sentinel as `prow` subscripts `None` and
raises TypeError; a region whose collection comes back empty fails
`assert prows`.  Each produced entry is
`(region_line, region_len = rend - rstart, prows)`. -/
def regionsLoop : List Region → Option Bed × List Bed →
    Except RunError (List (String × Int × List Bed))
  | [], _ => .ok []
  | _ :: _, (none, _) => .error .typeError
  | r :: rs, (some prow, rest) =>
    match advanceCursor r.chrom r.start prow rest with
    | (none, _) => .error .typeError
    | (some b, brest) =>
      let col := collectRecords r.chrom r.stop b brest
      if col.1.isEmpty then .error .assertionError
      else
        match regionsLoop rs col.2 with
        | .error e => .error e
        | .ok info => .ok ((r.line, (r.stop : Int) - (r.start : Int), col.1) :: info)

/-- The initial `prow = piter.next()` of `_get_ps_in_regions`: the first
record of the chained stream, or the `None` sentinel when the p-value stream
is empty. -/
def initCursor (pvals : List Bed) : Option Bed × List Bed :=
  match pvals with
  | [] => (none, [])
  | b :: t => (some b, t)

/-- `_get_ps_in_regions(fregions, fpvals, col_num)`: the initial
`prow = piter.next()` takes the first record (or the sentinel when the
p-value stream is empty); then the per-region loop runs over *every* line of
the region file.  The trailing `assert nr + 1 == len(region_info)` reads the
loop variable `nr`, which is unbound (NameError) when the region file has no
lines at all, and `nr + 1` counts every enumerated line, comments included. -/
def _get_ps_in_regions (regions : List Region) (pvals : List Bed) :
    Except RunError (List (String × Int × List Bed)) :=
  match regions with
  | [] => .error .nameError
  | _ :: _ =>
    match regionsLoop regions (initCursor pvals) with
    | .error e => .error e
    | .ok info =>
      if regions.length = info.length then .ok info else .error .assertionError

/-- The record stream still ahead of a cursor (the current record, if any,
followed by the not-yet-drawn rest). -/
def cursorList : Option Bed × List Bed → List Bed
  | (none, rest) => rest
  | (some b, rest) => b :: rest

theorem advanceCursor_suffix (rchrom : String) (rstart : Nat) :
    ∀ (prow : Bed) (rest : List Bed),
      (cursorList (advanceCursor rchrom rstart prow rest)).IsSuffix (prow :: rest)
  | prow, [] => by
    unfold advanceCursor
    by_cases h : prow.chrom ≠ rchrom ∨ prow.start < rstart
    · simp [h, cursorList]
    · simp [h, cursorList]
  | prow, b :: t => by
    unfold advanceCursor
    by_cases h : prow.chrom ≠ rchrom ∨ prow.start < rstart
    · simp only [h, if_true]
      exact (advanceCursor_suffix rchrom rstart b t).trans (List.suffix_cons prow (b :: t))
    · simp [h, cursorList]

theorem collectRecords_decomp (rchrom : String) (rend : Nat) :
    ∀ (prow : Bed) (rest : List Bed),
      (collectRecords rchrom rend prow rest).1 ++
        cursorList (collectRecords rchrom rend prow rest).2 = prow :: rest
  | prow, [] => by
    unfold collectRecords
    by_cases h : tupleGE rchrom rend prow.chrom prow.stop
    · simp [h, cursorList]
    · simp [h, cursorList]
  | prow, b :: t => by
    unfold collectRecords
    by_cases h : tupleGE rchrom rend prow.chrom prow.stop
    · simp only [h, if_true]
      have ih := collectRecords_decomp rchrom rend b t
      simpa using ih
    · simp [h, cursorList]

theorem regionsLoop_order_sublist :
    ∀ (regions : List Region) (cursor : Option Bed × List Bed)
      (info : List (String × Int × List Bed)),
      regionsLoop regions cursor = .ok info →
      info.map (fun t => t.1) = regions.map Region.line ∧
      List.Sublist (info.flatMap fun t => t.2.2) (cursorList cursor) ∧
      ∀ t ∈ info, t.2.2 ≠ []
  | [], _, info => by
    intro h
    simp only [regionsLoop] at h
    cases h
    simp
  | r :: rs, (none, rest), info => by
    intro h
    simp only [regionsLoop] at h
    cases h
  | r :: rs, (some prow, rest), info => by
    intro h
    simp only [regionsLoop] at h
    split at h
    · cases h
    · rename_i b brest hadv
      split at h
      · cases h
      · rename_i hemp
        split at h
        · cases h
        · rename_i info' hrec
          cases h
          obtain ⟨ih1, ih2, ih3⟩ :=
            regionsLoop_order_sublist rs (collectRecords r.chrom r.stop b brest).2 info' hrec
          refine ⟨by simp [ih1], ?_, ?_⟩
          · have hdec := collectRecords_decomp r.chrom r.stop b brest
            have hsuf := advanceCursor_suffix r.chrom r.start prow rest
            rw [hadv] at hsuf
            have h1 : List.Sublist
                ((collectRecords r.chrom r.stop b brest).1 ++ info'.flatMap fun t => t.2.2)
                ((collectRecords r.chrom r.stop b brest).1 ++
                  cursorList (collectRecords r.chrom r.stop b brest).2) :=
              List.Sublist.append_left ih2 _
            have h2 : List.Sublist
                ((collectRecords r.chrom r.stop b brest).1 ++
                  cursorList (collectRecords r.chrom r.stop b brest).2)
                (cursorList (some prow, rest)) := by
              rw [hdec]
              exact hsuf.sublist
            simpa using h1.trans h2
          · intro t ht
            rcases List.mem_cons.mp ht with h | h
            · subst h
              simpa [List.isEmpty_iff] using hemp
            · exact ih3 t h

/-- Forward-sweep correctness of the matcher loop: on success there is one
assignment per region line, in region order; the records assigned, flattened
in region order, form a sublist of the input record stream (so the cursor
never rewinds and no record is assigned twice); and every assignment is
non-empty. -/
theorem get_ps_in_regions_sound (regions : List Region) (pvals : List Bed)
    (info : List (String × Int × List Bed))
    (h : _get_ps_in_regions regions pvals = .ok info) :
    info.map (fun t => t.1) = regions.map Region.line ∧
    List.Sublist (info.flatMap fun t => t.2.2) pvals ∧
    ∀ t ∈ info, t.2.2 ≠ [] := by
  cases regions with
  | nil => simp only [_get_ps_in_regions] at h; cases h
  | cons r rs =>
    simp only [_get_ps_in_regions] at h
    rcases hrec : regionsLoop (r :: rs) (initCursor pvals) with e | info'
    · rw [hrec] at h; cases h
    · rw [hrec] at h
      dsimp only at h
      by_cases hlen : (r :: rs).length = info'.length
      · rw [if_pos hlen] at h
        cases h
        obtain ⟨h1, h2, h3⟩ := regionsLoop_order_sublist _ _ _ hrec
        refine ⟨h1, ?_, h3⟩
        cases pvals with
        | nil => simpa [initCursor, cursorList] using h2
        | cons b t => simpa [initCursor, cursorList] using h2
      · rw [if_neg hlen] at h; cases h

/-! Coverage estimation (`get_total_coverage`). -/

/-- The integer base positions `range(feat['start'], feat['end'])` of one
record. -/
def bedIco (b : Bed) : Finset ℕ := Finset.Ico b.start b.stop

/-- One groupby run: `bases = set()` then `bases.update(range(start, end))`
per record of the run. -/
def basesOf (l : List Bed) : Finset ℕ := l.foldl (fun s b => s ∪ bedIco b) ∅

/-- itertools.groupby keyed by `itemgetter('chrom')`: the maximal runs of
consecutive records sharing a chromosome, in stream order.  Written by
structural recursion (merging into the head run) so that it evaluates by
kernel reduction; `runsBy_cons_eq` below gives the usual
run-at-a-time unfolding. -/
def runsBy : List Bed → List (List Bed)
  | [] => []
  | a :: t =>
    match runsBy t with
    | [] => [[a]]
    | [] :: rs => [a] :: [] :: rs
    | (b :: run) :: rs =>
      if a.chrom == b.chrom then (a :: b :: run) :: rs
      else [a] :: (b :: run) :: rs

/-- `get_total_coverage(fpvals, col_num, out_val)`: for each groupby(chrom)
run accumulate the covered positions into a set and add its size to the
running total (the source writes the total into a shared
`multiprocessing.Value` cell; the value written is modelled). -/
def get_total_coverage (pvals : List Bed) : ℕ :=
  (runsBy pvals).foldl (fun tc run => tc + (basesOf run).card) 0

/-- Specification-side definition, following the CoverageEstimator contract
word by word: per chromosome, the set of integer base positions touched by
any record interval of that chromosome; the total is the sum of the set
sizes across the distinct chromosomes. -/
def coverageByChromSpec (pvals : List Bed) : ℕ :=
  ((pvals.map Bed.chrom).toFinset).sum
    (fun c => (basesOf (pvals.filter fun b => b.chrom == c)).card)

theorem length_dropWhile_le {α : Type} (p : α → Bool) :
    ∀ l : List α, (l.dropWhile p).length ≤ l.length := by
  intro l
  induction l with
  | nil => simp
  | cons a t ih =>
    by_cases h : p a = true
    · rw [List.dropWhile_cons_of_pos h]
      exact Nat.le_succ_of_le ih
    · rw [List.dropWhile_cons_of_neg h]

theorem dropWhile_head_false {α : Type} (p : α → Bool) :
    ∀ (l : List α) (a : α) (t : List α), l.dropWhile p = a :: t → p a = false := by
  intro l
  induction l with
  | nil => intro a t h; cases h
  | cons x xs ih =>
    intro a t h
    by_cases hx : p x = true
    · rw [List.dropWhile_cons_of_pos hx] at h
      exact ih a t h
    · rw [List.dropWhile_cons_of_neg hx] at h
      cases h
      exact Bool.eq_false_iff.mpr hx

theorem runsBy_cons_eq (a : Bed) (t : List Bed) :
    runsBy (a :: t) =
      (a :: t.takeWhile (fun x => x.chrom == a.chrom)) ::
        runsBy (t.dropWhile (fun x => x.chrom == a.chrom)) := by
  induction t generalizing a with
  | nil => simp [runsBy]
  | cons b t' ih =>
    have hstep : runsBy (a :: b :: t') =
        (match runsBy (b :: t') with
          | [] => [[a]]
          | [] :: rs => [a] :: [] :: rs
          | (c :: run) :: rs =>
            if a.chrom == c.chrom then (a :: c :: run) :: rs
            else [a] :: (c :: run) :: rs) := rfl
    by_cases h : b.chrom = a.chrom
    · have hba : (b.chrom == a.chrom) = true := by simp [h]
      have hab : (a.chrom == b.chrom) = true := by simp [h]
      rw [hstep, ih b]
      simp only [List.takeWhile_cons, List.dropWhile_cons, hba, hab, if_true]
      rw [← h]
    · have hba : (b.chrom == a.chrom) = false := by
        simp only [beq_eq_false_iff_ne, ne_eq]
        exact h
      have hab : (a.chrom == b.chrom) = false := by
        simp only [beq_eq_false_iff_ne, ne_eq]
        exact fun he => h he.symm
      rw [hstep, ih b]
      simp only [List.takeWhile_cons, List.dropWhile_cons, hba, hab]
      simp only [Bool.false_eq_true, if_false]
      rw [← ih b]

theorem foldl_add_card (rs : List (List Bed)) :
    ∀ n : ℕ, rs.foldl (fun tc run => tc + (basesOf run).card) n
      = n + rs.foldl (fun tc run => tc + (basesOf run).card) 0 := by
  induction rs with
  | nil => intro n; simp
  | cons r t ih =>
    intro n
    simp only [List.foldl_cons]
    rw [ih (n + (basesOf r).card), ih (0 + (basesOf r).card)]
    omega

instance : IsTrans Bed (fun x y : Bed => x.chrom ≤ y.chrom) :=
  ⟨fun _ _ _ h1 h2 => le_trans h1 h2⟩

theorem coverage_eq_aux :
    ∀ (n : ℕ) (pvals : List Bed), pvals.length ≤ n →
      List.Chain' (fun x y => x.chrom ≤ y.chrom) pvals →
      get_total_coverage pvals = coverageByChromSpec pvals := by
  intro n
  induction n with
  | zero =>
    intro pvals hlen _
    have h0 : pvals = [] := List.length_eq_zero.mp (Nat.le_zero.mp hlen)
    subst h0
    simp [get_total_coverage, coverageByChromSpec, runsBy]
  | succ n ih =>
    intro pvals hlen hchain
    cases pvals with
    | nil => simp [get_total_coverage, coverageByChromSpec, runsBy]
    | cons a t =>
      have htdecomp : t.takeWhile (fun x => x.chrom == a.chrom) ++
          t.dropWhile (fun x => x.chrom == a.chrom) = t :=
        List.takeWhile_append_dropWhile _ _
      have hpw : List.Pairwise (fun x y : Bed => x.chrom ≤ y.chrom) (a :: t) :=
        List.chain'_iff_pairwise.mp hchain
      have hpwt : List.Pairwise (fun x y : Bed => x.chrom ≤ y.chrom) t :=
        (List.pairwise_cons.mp hpw).2
      have hdwsub : List.Sublist (t.dropWhile (fun x => x.chrom == a.chrom)) t := by
        conv_rhs => rw [← htdecomp]
        exact List.sublist_append_right _ _
      have hpwdw : List.Pairwise (fun x y : Bed => x.chrom ≤ y.chrom)
          (t.dropWhile (fun x => x.chrom == a.chrom)) :=
        hpwt.sublist hdwsub
      have htwmem : ∀ x ∈ t.takeWhile (fun x => x.chrom == a.chrom), x.chrom = a.chrom := by
        intro x hx
        simpa using List.mem_takeWhile_imp hx
      have hdwmem : ∀ x ∈ t.dropWhile (fun x => x.chrom == a.chrom), a.chrom < x.chrom := by
        cases hdwc : t.dropWhile (fun x => x.chrom == a.chrom) with
        | nil => intro x hx; simp at hx
        | cons r0 rest =>
          have hr0false : (r0.chrom == a.chrom) = false :=
            dropWhile_head_false _ t r0 rest hdwc
          have hr0ne : r0.chrom ≠ a.chrom := by simpa using hr0false
          have hr0mem : r0 ∈ t := hdwsub.subset (by rw [hdwc]; exact List.mem_cons_self r0 rest)
          have hle : a.chrom ≤ r0.chrom := (List.pairwise_cons.mp hpw).1 r0 hr0mem
          have hlt : a.chrom < r0.chrom := lt_of_le_of_ne hle (fun he => hr0ne he.symm)
          intro x hx
          rcases List.mem_cons.mp hx with h | h
          · subst h; exact hlt
          · refine lt_of_lt_of_le hlt ?_
            rw [hdwc] at hpwdw
            exact (List.pairwise_cons.mp hpwdw).1 x h
      have hdwne : ∀ x ∈ t.dropWhile (fun x => x.chrom == a.chrom), x.chrom ≠ a.chrom :=
        fun x hx he => absurd (he ▸ hdwmem x hx) (lt_irrefl _)
      have hfiltera : (a :: t).filter (fun b => b.chrom == a.chrom)
          = a :: t.takeWhile (fun x => x.chrom == a.chrom) := by
        rw [List.filter_cons_of_pos (by simp)]
        congr 1
        conv_lhs => rw [← htdecomp]
        rw [List.filter_append]
        rw [show List.filter (fun b => b.chrom == a.chrom)
              (List.takeWhile (fun x => x.chrom == a.chrom) t)
            = List.takeWhile (fun x => x.chrom == a.chrom) t from
          List.filter_eq_self.mpr (fun x hx => by simp [htwmem x hx])]
        rw [show List.filter (fun b => b.chrom == a.chrom)
              (List.dropWhile (fun x => x.chrom == a.chrom) t)
            = [] from
          List.filter_eq_nil_iff.mpr (fun x hx => by
            simp only [Bool.not_eq_true, beq_eq_false_iff_ne, ne_eq]
            exact hdwne x hx)]
        simp
      have hfilterc : ∀ c, c ≠ a.chrom →
          (a :: t).filter (fun b => b.chrom == c)
            = (t.dropWhile (fun x => x.chrom == a.chrom)).filter (fun b => b.chrom == c) := by
        intro c hc
        rw [List.filter_cons_of_neg (by
          simp only [beq_eq_false_iff_ne, ne_eq, Bool.not_eq_true]
          exact fun he => hc he.symm)]
        conv_lhs => rw [← htdecomp]
        rw [List.filter_append]
        rw [show List.filter (fun b => b.chrom == c)
              (List.takeWhile (fun x => x.chrom == a.chrom) t)
            = [] from
          List.filter_eq_nil_iff.mpr (fun x hx => by
            rw [htwmem x hx]
            simp only [Bool.not_eq_true, beq_eq_false_iff_ne, ne_eq]
            exact fun he => hc he.symm)]
        simp
      have hchromset : ((a :: t).map Bed.chrom).toFinset
          = insert a.chrom (((t.dropWhile (fun x => x.chrom == a.chrom)).map Bed.chrom).toFinset) := by
        ext c
        simp only [List.map_cons, List.toFinset_cons, Finset.mem_insert,
          List.mem_toFinset, List.mem_map]
        constructor
        · rintro (h | ⟨x, hx, rfl⟩)
          · exact Or.inl h
          · rw [← htdecomp] at hx
            rcases List.mem_append.mp hx with h | h
            · exact Or.inl (htwmem x h)
            · exact Or.inr ⟨x, h, rfl⟩
        · rintro (h | ⟨x, hx, rfl⟩)
          · exact Or.inl h
          · exact Or.inr ⟨x, hdwsub.subset hx, rfl⟩
      have hnotmem : a.chrom ∉
          ((t.dropWhile (fun x => x.chrom == a.chrom)).map Bed.chrom).toFinset := by
        simp only [List.mem_toFinset, List.mem_map]
        rintro ⟨x, hx, he⟩
        exact hdwne x hx he
      have hlendw : (t.dropWhile (fun x => x.chrom == a.chrom)).length ≤ n := by
        have h1 := length_dropWhile_le (fun x : Bed => x.chrom == a.chrom) t
        have h2 : t.length ≤ n := by
          simp only [List.length_cons] at hlen
          omega
        omega
      have hih := ih (t.dropWhile (fun x => x.chrom == a.chrom)) hlendw
        (List.chain'_iff_pairwise.mpr hpwdw)
      have hcov : get_total_coverage (a :: t)
          = (basesOf (a :: t.takeWhile (fun x => x.chrom == a.chrom))).card
            + get_total_coverage (t.dropWhile (fun x => x.chrom == a.chrom)) := by
        unfold get_total_coverage
        rw [runsBy_cons_eq]
        simp only [List.foldl_cons, Nat.zero_add]
        rw [foldl_add_card]
      rw [hcov, coverageByChromSpec, hchromset, Finset.sum_insert hnotmem, hfiltera]
      rw [Finset.sum_congr rfl (fun c hc => by
        rw [hfilterc c (fun he => hnotmem (he ▸ hc))])]
      rw [hih, coverageByChromSpec]

/-! The Sidak correction, the truncated-product statistic and the two
Monte-Carlo simulation loops. -/

/-- `sidak(p, region_length, total_coverage)`:
`k = total_coverage / float(region_length)`, `p_sidak = 1 - (1 - p)**k`,
`return min(p_sidak, 1)` (real power). -/
noncomputable def sidak (p region_length total_coverage : ℝ) : ℝ :=
  min (1 - (1 - p) ^ (total_coverage / region_length)) 1

/-- `calc_w(ps, truncate_at)`: `np.exp(np.sum(np.log(ps[ps <= truncate_at])))`
(the product of the ps at or below the threshold, accumulated in the log
domain; an empty selection sums to 0 and exponentiates to 1). -/
noncomputable def calc_w (ps : List ℝ) (truncate_at : ℝ) : ℝ :=
  Real.exp (((ps.filter (fun x => decide (x ≤ truncate_at))).map Real.log).sum)

/-- The result dict of the external `stouffer_liptak(ps, sigma)`:
`{"OK": bool, "p": float}`. -/
structure SLResult where
  OK : Bool
  p : ℝ

/-- `gen_correlated(sigma, n, observed)` with its unbounded `while True`
retry loop, indexed by fuel (the number of loop iterations still allowed;
the Python loop has no bound, so the real loop corresponds to arbitrary
fuel).  The randomness is the oracle `draw`, giving the raw uniform or
resampled n-by-m matrix X of attempt number `attempt`; `chol` is numpy's
Cholesky factorization (`none` models a raised LinAlgError); `pnorm` and
`qnorm` are scipy's standard normal cdf and quantile, applied elementwise.
One iteration draws X and returns `pnorm(chol(sigma) * qnorm(X))`, retrying
on factorization failure with a fresh draw of the same sigma. -/
noncomputable def gen_correlated {nn mm : ℕ}
    (chol : Matrix (Fin nn) (Fin nn) ℝ → Option (Matrix (Fin nn) (Fin nn) ℝ))
    (pnorm qnorm : ℝ → ℝ)
    (sigma : Matrix (Fin nn) (Fin nn) ℝ)
    (draw : ℕ → Matrix (Fin nn) (Fin mm) ℝ) :
    ℕ → ℕ → Option (Matrix (Fin nn) (Fin mm) ℝ)
  | _, 0 => none
  | attempt, fuel + 1 =>
    match chol sigma with
    | some L => some ((L * (draw attempt).map qnorm).map pnorm)
    | none => gen_correlated chol pnorm qnorm sigma draw (attempt + 1) fuel

/-- `sim(sigma, ps, nsims, truncate, sample_distribution)`, the truncated
product simulation.  The sampler is abstracted by the oracle `gc`:
`gc i m` is the list of the `m` columns of the matrix returned by
`gen_correlated(sigma, m, sample_distribution)` in loop iteration `i` (the
source iterates the columns as rows of `Y.T`).  `B` accumulates, over 10
batches of `nsims/10` synthetic vectors each (Python 2 integer division),
the indicators `calc_w(row, truncate) <= w0`, and the result is
`B / nsims`. -/
noncomputable def sim (gc : ℕ → ℕ → List (List ℝ)) (ps : List ℝ)
    (nsims : ℕ) (truncate : ℝ) : ℝ :=
  let w0 := calc_w ps truncate
  let B := (List.range 10).foldl
    (fun acc i => acc + ((gc i (nsims / 10)).countP
      (fun row => decide (calc_w row truncate ≤ w0)))) 0
  (B : ℝ) / (nsims : ℝ)

/-- The inner loop of `sl_sim` over the columns of one batch:
`s = stouffer_liptak(prow, sigma)`, then `if not s["OK"]: 1/0` (a raised
ZeroDivisionError), then `if s["p"] < w0: N += 1`. -/
noncomputable def slCount {S : Type} (slkO : List ℝ → S → SLResult) (sigma : S)
    (w0 : ℝ) : List (List ℝ) → Except RunError ℕ
  | [] => .ok 0
  | c :: t =>
    if (slkO c sigma).OK then
      match slCount slkO sigma w0 t with
      | .error e => .error e
      | .ok n => .ok ((if (slkO c sigma).p < w0 then 1 else 0) + n)
    else .error .zeroDivisionError

/-- `sl_sim(sigma, ps, nsims, sample_distribution)`, the direct-combiner
simulation: `w0 = stouffer_liptak(ps, sigma)["p"]`, then 10 batches of
`nsims/10` synthetic vectors each, counting the synthetic combined p-values
strictly below `w0` and failing on any `OK = False`; the result is
`N / float(nsims)`. -/
noncomputable def sl_sim {S : Type} (gc : ℕ → ℕ → List (List ℝ))
    (slkO : List ℝ → S → SLResult) (sigma : S) (ps : List ℝ) (nsims : ℕ) :
    Except RunError ℝ :=
  let w0 := (slkO ps sigma).p
  match (List.range 10).foldl
      (fun acc i =>
        match acc with
        | Except.error e => Except.error e
        | Except.ok n =>
          match slCount slkO sigma w0 (gc i (nsims / 10)) with
          | Except.error e => Except.error e
          | Except.ok m => Except.ok (n + m))
      (Except.ok 0 : Except RunError ℕ) with
  | .error e => .error e
  | .ok N => .ok ((N : ℝ) / (nsims : ℝ))

/-! Orchestration (`region_p`). -/

/-- A cell of a yielded result row (the Python result is the heterogeneous
list `[region_line, slk_p, sidak_slk_p]`). -/
inductive Val where
  | str (s : String)
  | num (x : ℝ)

/-- The pre-check count `sum(1 for _ in open(fregions) if _[0] != "#")`:
the number of non-comment lines of the region file (a region line is a
comment when its raw line, equivalently its first token, starts with '#'). -/
def nonCommentCount (regions : List Region) : ℕ :=
  (regions.filter (fun r => ! r.line.startsWith "#")).length

/-- The body of the main loop of `region_p` for one matched region entry
`(region_line, region_len, prows)`: `sigma = gen_sigma_matrix(prows, acfs)`
(oracle `sigmaO`, with the one-time acf table baked in),
`ps = [prow["p"] for prow in prows]`, `assert ps.shape[0] != 0`,
`assert ps.shape[0] == sigma.shape[0]` (oracle `dimS` gives the oracle
matrix's dimension), `region_slk = stouffer_liptak(ps, sigma)` (oracle
`slkO`), `assert region_slk["OK"] is True`, `sidak_slk_p = sidak(...)`, and
the yielded row `[region_line, slk_p, sidak_slk_p]`. -/
noncomputable def processRegion {S : Type} (sigmaO : List Bed → S) (dimS : S → ℕ)
    (slkO : List ℝ → S → SLResult) (total_coverage : ℝ)
    (entry : String × Int × List Bed) : Except RunError (List Val) :=
  let sigma := sigmaO entry.2.2
  let ps := entry.2.2.map Bed.p
  if ps.length = 0 then .error .assertionError
  else if ps.length ≠ dimS sigma then .error .assertionError
  else
    let region_slk := slkO ps sigma
    if region_slk.OK then
      .ok [.str entry.1, .num region_slk.p,
        .num (sidak region_slk.p (entry.2.1 : ℝ) total_coverage)]
    else .error .assertionError

/-- The main `for region_line, region_len, prows in region_info` loop of
`region_p`, yielding one result row per matched region and aborting the run
on the first fatal error. -/
noncomputable def processAll {S : Type} (sigmaO : List Bed → S) (dimS : S → ℕ)
    (slkO : List ℝ → S → SLResult) (total_coverage : ℝ) :
    List (String × Int × List Bed) → Except RunError (List (List Val))
  | [] => .ok []
  | e :: t =>
    match processRegion sigmaO dimS slkO total_coverage e with
    | .error err => .error err
    | .ok row =>
      match processAll sigmaO dimS slkO total_coverage t with
      | .error err => .error err
      | .ok rows => .ok (row :: rows)

/-- `region_p(fpvals, fregions, col_num, nsims, tau, step, random)` as a
whole-run function (the Python generator yields lazily; any fatal error
aborts the streamed run, which the model folds into one `Except`).  Steps:
exit when the region file has no non-comment lines; match regions to
records; wait for the background coverage total (its value is modelled
directly); `if random: 1/0` — the deliberate ZeroDivisionError placeholder
for the unimplemented uniform-sampling mode; then process each matched
region in order.  `nsims` and `tau` are accepted but unused: the
Monte-Carlo corroboration block of the loop body (guarded by
`sidak_slk_p < 0.1` in the source) is an inert string literal, so no
simulation runs and every yielded row has exactly three cells. -/
noncomputable def region_p {S : Type} (sigmaO : List Bed → S) (dimS : S → ℕ)
    (slkO : List ℝ → S → SLResult)
    (regions : List Region) (pvals : List Bed)
    (nsims : ℕ) (tau : ℝ) (step : ℕ) (random : Bool) :
    Except RunError (List (List Val)) :=
  if nonCommentCount regions = 0 then .error .systemExit
  else
    match _get_ps_in_regions regions pvals with
    | .error e => .error e
    | .ok info =>
      if random then .error .zeroDivisionError
      else
        processAll sigmaO dimS slkO ((get_total_coverage pvals : ℝ)) info

/-! Helper lemmas. -/

theorem exp_sum_log (l : List ℝ) (hpos : ∀ x ∈ l, 0 < x) :
    Real.exp ((l.map Real.log).sum) = l.prod := by
  induction l with
  | nil => simp
  | cons a t ih =>
    simp only [List.map_cons, List.sum_cons, List.prod_cons]
    rw [Real.exp_add, Real.exp_log (hpos a (List.mem_cons_self a t)),
      ih (fun x hx => hpos x (List.mem_cons_of_mem a hx))]

theorem calc_w_eq_prod (ps : List ℝ) (tau : ℝ) (hpos : ∀ x ∈ ps, 0 < x) :
    calc_w ps tau = (ps.filter (fun x => decide (x ≤ tau))).prod := by
  unfold calc_w
  exact exp_sum_log _ (fun x hx => hpos x (List.mem_of_mem_filter hx))

theorem calc_w_of_filter_eq_nil (ps : List ℝ) (tau : ℝ)
    (h : ps.filter (fun x => decide (x ≤ tau)) = []) : calc_w ps tau = 1 := by
  unfold calc_w
  rw [h]
  simp

theorem sidak_zero (L C : ℝ) : sidak 0 L C = 0 := by
  unfold sidak
  rw [sub_zero, Real.one_rpow]
  simp

theorem foldl_add_nat {α : Type} (f : α → ℕ) :
    ∀ (l : List α) (n : ℕ),
      l.foldl (fun acc x => acc + f x) n = n + (l.map f).sum := by
  intro l
  induction l with
  | nil => intro n; simp
  | cons a t ih =>
    intro n
    simp only [List.foldl_cons, List.map_cons, List.sum_cons]
    rw [ih]
    omega

theorem countP_flatMap {α β : Type} (p : β → Bool) :
    ∀ (l : List α) (g : α → List β),
      (l.flatMap g).countP p = (l.map (fun a => (g a).countP p)).sum := by
  intro l
  induction l with
  | nil => intro g; simp
  | cons a t ih =>
    intro g
    simp only [List.flatMap_cons, List.countP_append, List.map_cons, List.sum_cons, ih]

theorem length_flatMap_sum {α β : Type} :
    ∀ (l : List α) (g : α → List β),
      (l.flatMap g).length = (l.map (fun a => (g a).length)).sum := by
  intro l
  induction l with
  | nil => intro g; simp
  | cons a t ih =>
    intro g
    simp only [List.flatMap_cons, List.length_append, List.map_cons, List.sum_cons, ih]

theorem slCount_ok {S : Type} (slkO : List ℝ → S → SLResult) (sigma : S) (w0 : ℝ) :
    ∀ cols : List (List ℝ), (∀ c ∈ cols, (slkO c sigma).OK = true) →
      slCount slkO sigma w0 cols
        = .ok (cols.countP (fun c => decide ((slkO c sigma).p < w0))) := by
  intro cols
  induction cols with
  | nil => intro _; rfl
  | cons c t ih =>
    intro h
    simp only [slCount, h c (List.mem_cons_self c t), if_true]
    rw [ih (fun x hx => h x (List.mem_cons_of_mem c hx))]
    simp only [List.countP_cons]
    congr 1
    by_cases hp : (slkO c sigma).p < w0
    · simp [hp, Nat.add_comm]
    · simp [hp]

theorem slCount_err {S : Type} (slkO : List ℝ → S → SLResult) (sigma : S) (w0 : ℝ) :
    ∀ cols : List (List ℝ), (∃ c ∈ cols, (slkO c sigma).OK = false) →
      slCount slkO sigma w0 cols = .error .zeroDivisionError := by
  intro cols
  induction cols with
  | nil => rintro ⟨c, hc, _⟩; cases hc
  | cons c t ih =>
    rintro ⟨x, hx, hxOK⟩
    by_cases hc : (slkO c sigma).OK = true
    · have hxt : x ∈ t := by
        rcases List.mem_cons.mp hx with h | h
        · subst h; rw [hc] at hxOK; cases hxOK
        · exact h
      simp only [slCount, hc, if_true]
      rw [ih ⟨x, hxt, hxOK⟩]
    · simp only [slCount, hc]
      simp

/-- The batch fold of `sl_sim`, abstracted over the per-batch results. -/
def slFoldStep (g : ℕ → Except RunError ℕ) (acc : Except RunError ℕ) (i : ℕ) :
    Except RunError ℕ :=
  match acc with
  | Except.error e => Except.error e
  | Except.ok n =>
    match g i with
    | Except.error e => Except.error e
    | Except.ok m => Except.ok (n + m)

theorem slFold_frozen (g : ℕ → Except RunError ℕ) :
    ∀ (l : List ℕ) (e : RunError),
      l.foldl (slFoldStep g) (Except.error e) = Except.error e := by
  intro l
  induction l with
  | nil => intro e; rfl
  | cons a t ih => intro e; simp only [List.foldl_cons, slFoldStep]; exact ih e

theorem slFold_ok (g : ℕ → Except RunError ℕ) (cnt : ℕ → ℕ) :
    ∀ (l : List ℕ), (∀ i ∈ l, g i = .ok (cnt i)) →
      ∀ n, l.foldl (slFoldStep g) (Except.ok n) = .ok (n + (l.map cnt).sum) := by
  intro l
  induction l with
  | nil => intro _ n; simp
  | cons a t ih =>
    intro h n
    simp only [List.foldl_cons, slFoldStep, h a (List.mem_cons_self a t)]
    rw [ih (fun i hi => h i (List.mem_cons_of_mem a hi))]
    simp only [List.map_cons, List.sum_cons]
    congr 1
    omega

theorem slFold_err (g : ℕ → Except RunError ℕ)
    (htot : ∀ i, g i = .error .zeroDivisionError ∨ ∃ k, g i = .ok k) :
    ∀ (l : List ℕ) (n : ℕ), (∃ i ∈ l, g i = .error .zeroDivisionError) →
      l.foldl (slFoldStep g) (Except.ok n) = .error .zeroDivisionError := by
  intro l
  induction l with
  | nil => rintro n ⟨i, hi, _⟩; cases hi
  | cons a t ih =>
    rintro n ⟨i, hi, hierr⟩
    rcases htot a with ha | ⟨k, ha⟩
    · simp only [List.foldl_cons, slFoldStep, ha]
      exact slFold_frozen g t _
    · have hit : i ∈ t := by
        rcases List.mem_cons.mp hi with h | h
        · subst h; rw [ha] at hierr; cases hierr
        · exact h
      simp only [List.foldl_cons, slFoldStep, ha]
      exact ih (n + k) ⟨i, hit, hierr⟩

theorem sl_sim_eq_fold {S : Type} (gc : ℕ → ℕ → List (List ℝ))
    (slkO : List ℝ → S → SLResult) (sigma : S) (ps : List ℝ) (nsims : ℕ) :
    sl_sim gc slkO sigma ps nsims =
      match (List.range 10).foldl
          (slFoldStep (fun i =>
            slCount slkO sigma ((slkO ps sigma).p) (gc i (nsims / 10))))
          (Except.ok 0) with
      | .error e => .error e
      | .ok N => .ok ((N : ℝ) / (nsims : ℝ)) := rfl

theorem processRegion_ok_shape {S : Type} (sigmaO : List Bed → S) (dimS : S → ℕ)
    (slkO : List ℝ → S → SLResult) (tc : ℝ) (entry : String × Int × List Bed)
    (row : List Val) (h : processRegion sigmaO dimS slkO tc entry = .ok row) :
    (slkO (entry.2.2.map Bed.p) (sigmaO entry.2.2)).OK = true ∧
    row = [Val.str entry.1, Val.num (slkO (entry.2.2.map Bed.p) (sigmaO entry.2.2)).p,
      Val.num (sidak (slkO (entry.2.2.map Bed.p) (sigmaO entry.2.2)).p
        (entry.2.1 : ℝ) tc)] := by
  unfold processRegion at h
  by_cases h0 : (entry.2.2.map Bed.p).length = 0
  · rw [if_pos h0] at h; cases h
  · rw [if_neg h0] at h
    by_cases h1 : (entry.2.2.map Bed.p).length ≠ dimS (sigmaO entry.2.2)
    · rw [if_pos h1] at h; cases h
    · rw [if_neg h1] at h
      by_cases h2 : (slkO (entry.2.2.map Bed.p) (sigmaO entry.2.2)).OK = true
      · rw [if_pos h2] at h
        cases h
        exact ⟨h2, rfl⟩
      · rw [if_neg h2] at h; cases h

theorem processRegion_not_ok {S : Type} (sigmaO : List Bed → S) (dimS : S → ℕ)
    (slkO : List ℝ → S → SLResult) (tc : ℝ) (entry : String × Int × List Bed)
    (h : (slkO (entry.2.2.map Bed.p) (sigmaO entry.2.2)).OK = false) :
    processRegion sigmaO dimS slkO tc entry = .error .assertionError := by
  unfold processRegion
  by_cases h0 : (entry.2.2.map Bed.p).length = 0
  · rw [if_pos h0]
  · rw [if_neg h0]
    by_cases h1 : (entry.2.2.map Bed.p).length ≠ dimS (sigmaO entry.2.2)
    · rw [if_pos h1]
    · rw [if_neg h1, if_neg (by rw [h]; exact Bool.false_ne_true)]

theorem processAll_ok_forall {S : Type} (sigmaO : List Bed → S) (dimS : S → ℕ)
    (slkO : List ℝ → S → SLResult) (tc : ℝ) :
    ∀ (l : List (String × Int × List Bed)) (rows : List (List Val)),
      processAll sigmaO dimS slkO tc l = .ok rows →
      (∀ e ∈ l, ∃ row, processRegion sigmaO dimS slkO tc e = .ok row) ∧
      (∀ row ∈ rows, ∃ e ∈ l, processRegion sigmaO dimS slkO tc e = .ok row) := by
  intro l
  induction l with
  | nil =>
    intro rows h
    simp only [processAll] at h
    cases h
    exact ⟨fun e he => absurd he (List.not_mem_nil e), fun row hr => absurd hr (List.not_mem_nil row)⟩
  | cons e t ih =>
    intro rows h
    simp only [processAll] at h
    rcases hpr : processRegion sigmaO dimS slkO tc e with err | row0
    · rw [hpr] at h; cases h
    · rw [hpr] at h
      rcases hpa : processAll sigmaO dimS slkO tc t with err | rows'
      · rw [hpa] at h; cases h
      · rw [hpa] at h
        cases h
        obtain ⟨ih1, ih2⟩ := ih rows' hpa
        constructor
        · intro x hx
          rcases List.mem_cons.mp hx with hxe | hxt
          · subst hxe; exact ⟨row0, hpr⟩
          · exact ih1 x hxt
        · intro row hr
          rcases List.mem_cons.mp hr with hre | hrt
          · subst hre; exact ⟨e, List.mem_cons_self e t, hpr⟩
          · obtain ⟨x, hx, hxr⟩ := ih2 row hrt
            exact ⟨x, List.mem_cons_of_mem e hx, hxr⟩

theorem region_p_ok_inv {S : Type} (sigmaO : List Bed → S) (dimS : S → ℕ)
    (slkO : List ℝ → S → SLResult) (regions : List Region) (pvals : List Bed)
    (nsims : ℕ) (tau : ℝ) (step : ℕ) (random : Bool) (results : List (List Val))
    (h : region_p sigmaO dimS slkO regions pvals nsims tau step random = .ok results) :
    ∃ info, _get_ps_in_regions regions pvals = .ok info ∧
      processAll sigmaO dimS slkO ((get_total_coverage pvals : ℝ)) info = .ok results := by
  unfold region_p at h
  by_cases hnc : nonCommentCount regions = 0
  · rw [if_pos hnc] at h; cases h
  · rw [if_neg hnc] at h
    rcases hinfo : _get_ps_in_regions regions pvals with e | info
    · rw [hinfo] at h; cases h
    · rw [hinfo] at h
      cases random with
      | true => simp only [if_true] at h; cases h
      | false =>
        simp only [if_false, Bool.false_eq_true] at h
        exact ⟨info, rfl, h⟩

/-! Concrete demonstration inputs for the witnesses and counterexamples. -/

noncomputable def demoBedA : Bed := ⟨"chr1", 10, 20, (1:ℝ)/2⟩

noncomputable def demoBedB : Bed := ⟨"chr1", 30, 40, (3:ℝ)/10⟩

def demoRegion1 : Region := ⟨"chr1\t5\t25", "chr1", 5, 25⟩

def demoRegion2 : Region := ⟨"chr1\t28\t45", "chr1", 28, 45⟩

noncomputable def demoInfo : List (String × Int × List Bed) :=
  [("chr1\t5\t25", 20, [demoBedA]), ("chr1\t28\t45", 17, [demoBedB])]

/-- A region parsed from a comment line (the code parses comment lines of
the region file like any other line). -/
def demoCommentRegion : Region := ⟨"#c\t0\t10", "#c", 0, 10⟩

def demoPlainRegion : Region := ⟨"c\t0\t10", "c", 0, 10⟩

noncomputable def demoHashBed : Bed := ⟨"#c", 0, 5, (1:ℝ)/2⟩

noncomputable def demoCBed : Bed := ⟨"c", 0, 5, (1:ℝ)/2⟩

/-! Claim theorems. -/

/-- C1: the region matcher processes regions in file order with a single
forward cursor (advance while chromosome differs or start is below the
region's start, then collect while (chromosome, end) stays lexicographically
within the region, stopping at stream end); consequently, on success there
is exactly one assignment per region in region order, and the records
assigned — flattened in region order — form a sublist of the input stream,
so the cursor never moves backward and each site record is assigned to at
most one region. -/
theorem claim_C1_region_matcher (regions : List Region) (pvals : List Bed)
    (info : List (String × Int × List Bed))
    (h : _get_ps_in_regions regions pvals = .ok info) :
    info.map (fun t => t.1) = regions.map Region.line ∧
    List.Sublist (info.flatMap fun t => t.2.2) pvals ∧
    ∀ t ∈ info, t.2.2 ≠ [] :=
  get_ps_in_regions_sound regions pvals info h

theorem claim_C1_region_matcher_witness :
    (_get_ps_in_regions [demoRegion1, demoRegion2] [demoBedA, demoBedB]
      = .ok demoInfo) ∧
    (demoInfo.map (fun t => t.1) = [demoRegion1, demoRegion2].map Region.line ∧
     List.Sublist (demoInfo.flatMap fun t => t.2.2) [demoBedA, demoBedB] ∧
     ∀ t ∈ demoInfo, t.2.2 ≠ []) :=
  ⟨by with_unfolding_all rfl,
   claim_C1_region_matcher [demoRegion1, demoRegion2] [demoBedA, demoBedB]
     demoInfo (by with_unfolding_all rfl)⟩

/-- C2: for p in the unit interval, positive region length L and
non-negative coverage C, the Sidak corrector returns
min(1, 1 - (1 - p)^k) with k = C / L; corrected(0, k) = 0;
corrected(1, k) = 1 for k > 0; corrected(p, 1) = p; and for fixed k the
corrected value is monotone non-decreasing in p. -/
theorem claim_C2_sidak_correction (p L C : ℝ) (hp0 : 0 ≤ p) (hp1 : p ≤ 1)
    (hL : 0 < L) (hC : 0 ≤ C) :
    sidak p L C = min 1 (1 - (1 - p) ^ (C / L)) ∧
    sidak 0 L C = 0 ∧
    (0 < C / L → sidak 1 L C = 1) ∧
    (C / L = 1 → sidak p L C = p) ∧
    (∀ q, q ≤ 1 → p ≤ q → sidak p L C ≤ sidak q L C) := by
  refine ⟨min_comm _ _, sidak_zero L C, ?_, ?_, ?_⟩
  · intro hk
    unfold sidak
    rw [sub_self, Real.zero_rpow (ne_of_gt hk), sub_zero, min_self]
  · intro hk
    unfold sidak
    rw [hk, Real.rpow_one, sub_sub_cancel, min_eq_left hp1]
  · intro q hq1 hpq
    unfold sidak
    have h1 : (1 - q) ^ (C / L) ≤ (1 - p) ^ (C / L) :=
      Real.rpow_le_rpow (by linarith) (by linarith) (div_nonneg hC hL.le)
    exact min_le_min (by linarith) le_rfl

theorem claim_C2_sidak_correction_witness :
    (0 ≤ (1:ℝ)/2) ∧ ((1:ℝ)/2 ≤ 1) ∧ (0 < (2:ℝ)) ∧ (0 ≤ (3:ℝ)) ∧
    (sidak ((1:ℝ)/2) 2 3 = min 1 (1 - (1 - (1:ℝ)/2) ^ ((3:ℝ) / 2)) ∧
     sidak 0 2 3 = 0 ∧
     (0 < (3:ℝ) / 2 → sidak 1 2 3 = 1) ∧
     ((3:ℝ) / 2 = 1 → sidak ((1:ℝ)/2) 2 3 = (1:ℝ)/2) ∧
     (∀ q, q ≤ 1 → (1:ℝ)/2 ≤ q → sidak ((1:ℝ)/2) 2 3 ≤ sidak q 2 3)) :=
  ⟨by norm_num, by norm_num, by norm_num, by norm_num,
   claim_C2_sidak_correction ((1:ℝ)/2) 2 3 (by norm_num) (by norm_num)
     (by norm_num) (by norm_num)⟩

/-- C3: for strictly positive p-values (the domain of the log), the
truncated-product statistic equals the product of the p-values at or below
the threshold; an empty selection yields 1; with threshold 1 (and p-values
at most 1) it is the product of all inputs; with threshold 0 it is 1. -/
theorem claim_C3_truncated_product (ps : List ℝ) (tau : ℝ)
    (hpos : ∀ x ∈ ps, 0 < x) (hle1 : ∀ x ∈ ps, x ≤ 1) :
    calc_w ps tau = (ps.filter (fun x => decide (x ≤ tau))).prod ∧
    (ps.filter (fun x => decide (x ≤ tau)) = [] → calc_w ps tau = 1) ∧
    calc_w ps 1 = ps.prod ∧
    calc_w ps 0 = 1 := by
  refine ⟨calc_w_eq_prod ps tau hpos, calc_w_of_filter_eq_nil ps tau, ?_, ?_⟩
  · rw [calc_w_eq_prod ps 1 hpos]
    congr 1
    exact List.filter_eq_self.mpr (fun x hx => by simpa using hle1 x hx)
  · apply calc_w_of_filter_eq_nil
    exact List.filter_eq_nil_iff.mpr (fun x hx => by
      simpa using not_le.mpr (hpos x hx))

theorem claim_C3_truncated_product_witness :
    (∀ x ∈ [(1:ℝ)/2, (1:ℝ)/3], 0 < x) ∧ (∀ x ∈ [(1:ℝ)/2, (1:ℝ)/3], x ≤ 1) ∧
    (calc_w [(1:ℝ)/2, (1:ℝ)/3] ((1:ℝ)/4)
        = ([(1:ℝ)/2, (1:ℝ)/3].filter (fun x => decide (x ≤ (1:ℝ)/4))).prod ∧
     ([(1:ℝ)/2, (1:ℝ)/3].filter (fun x => decide (x ≤ (1:ℝ)/4)) = [] →
        calc_w [(1:ℝ)/2, (1:ℝ)/3] ((1:ℝ)/4) = 1) ∧
     calc_w [(1:ℝ)/2, (1:ℝ)/3] 1 = [(1:ℝ)/2, (1:ℝ)/3].prod ∧
     calc_w [(1:ℝ)/2, (1:ℝ)/3] 0 = 1) := by
  have hpos : ∀ x ∈ [(1:ℝ)/2, (1:ℝ)/3], 0 < x := by
    intro x hx
    rcases List.mem_cons.mp hx with rfl | hx
    · norm_num
    · rcases List.mem_cons.mp hx with rfl | hx
      · norm_num
      · simp at hx
  have hle1 : ∀ x ∈ [(1:ℝ)/2, (1:ℝ)/3], x ≤ 1 := by
    intro x hx
    rcases List.mem_cons.mp hx with rfl | hx
    · norm_num
    · rcases List.mem_cons.mp hx with rfl | hx
      · norm_num
      · simp at hx
  exact ⟨hpos, hle1, claim_C3_truncated_product _ _ hpos hle1⟩

theorem sum_map_constant {α : Type} (l : List α) (k : ℕ) :
    (l.map (fun _ => k)).sum = l.length * k := by
  induction l with
  | nil => simp
  | cons a t ih =>
    simp only [List.map_cons, List.sum_cons, List.length_cons, ih]
    ring

/-- C4: both simulation statistics generate their synthetic vectors in
exactly 10 batches of nsims/10 vectors each (Python 2 integer division)
and use nsims as the Monte-Carlo denominator: `sim` returns
(number of synthetic truncated-product statistics at or below the observed
W0) / nsims, and `sl_sim` returns (number of synthetic combined p-values
strictly below the observed combined p) / nsims. -/
theorem claim_C4_simulation_batches {S : Type} (gc : ℕ → ℕ → List (List ℝ))
    (slkO : List ℝ → S → SLResult) (sigma : S) (ps : List ℝ)
    (nsims : ℕ) (truncate : ℝ)
    (hgc : ∀ i, (gc i (nsims / 10)).length = nsims / 10)
    (hok : ∀ i ∈ List.range 10, ∀ c ∈ gc i (nsims / 10), (slkO c sigma).OK = true) :
    sim gc ps nsims truncate
      = ((((List.range 10).flatMap fun i => gc i (nsims / 10)).countP
          (fun row => decide (calc_w row truncate ≤ calc_w ps truncate)) : ℕ) : ℝ)
        / (nsims : ℝ) ∧
    ((List.range 10).flatMap fun i => gc i (nsims / 10)).length = 10 * (nsims / 10) ∧
    sl_sim gc slkO sigma ps nsims
      = .ok (((((List.range 10).flatMap fun i => gc i (nsims / 10)).countP
          (fun c => decide ((slkO c sigma).p < (slkO ps sigma).p)) : ℕ) : ℝ)
        / (nsims : ℝ)) := by
  refine ⟨?_, ?_, ?_⟩
  · unfold sim
    dsimp only
    rw [countP_flatMap, foldl_add_nat]
    norm_num
  · rw [length_flatMap_sum]
    have hcongr : (List.range 10).map (fun i => (gc i (nsims / 10)).length)
        = (List.range 10).map (fun _ => nsims / 10) :=
      List.map_congr_left (fun i _ => hgc i)
    rw [hcongr, sum_map_constant, List.length_range]
  · rw [sl_sim_eq_fold]
    rw [slFold_ok _ (fun i => (gc i (nsims / 10)).countP
          (fun c => decide ((slkO c sigma).p < (slkO ps sigma).p)))
        (List.range 10)
        (fun i hi => slCount_ok slkO sigma _ _ (hok i hi)) 0]
    rw [countP_flatMap]
    norm_num

theorem claim_C4_simulation_batches_witness :
    (∀ i, (((fun (_ m : ℕ) => List.replicate m [(1:ℝ)/2]) : ℕ → ℕ → List (List ℝ))
        i (20 / 10)).length = 20 / 10) ∧
    (∀ i ∈ List.range 10,
      ∀ c ∈ ((fun (_ m : ℕ) => List.replicate m [(1:ℝ)/2]) : ℕ → ℕ → List (List ℝ))
          i (20 / 10),
        ((fun (_ : List ℝ) (_ : Unit) => SLResult.mk true 0) c ()).OK = true) ∧
    (sim (fun _ m => List.replicate m [(1:ℝ)/2]) [(1:ℝ)/2] 20 ((1:ℝ)/20)
      = ((((List.range 10).flatMap fun i =>
            (fun (_ m : ℕ) => List.replicate m [(1:ℝ)/2]) i (20 / 10)).countP
          (fun row => decide (calc_w row ((1:ℝ)/20) ≤ calc_w [(1:ℝ)/2] ((1:ℝ)/20))) : ℕ) : ℝ)
        / ((20:ℕ) : ℝ) ∧
     ((List.range 10).flatMap fun i =>
        (fun (_ m : ℕ) => List.replicate m [(1:ℝ)/2]) i (20 / 10)).length
        = 10 * (20 / 10) ∧
     sl_sim (fun _ m => List.replicate m [(1:ℝ)/2])
        (fun (_ : List ℝ) (_ : Unit) => SLResult.mk true 0) () [(1:ℝ)/2] 20
      = .ok (((((List.range 10).flatMap fun i =>
            (fun (_ m : ℕ) => List.replicate m [(1:ℝ)/2]) i (20 / 10)).countP
          (fun c => decide (((fun (_ : List ℝ) (_ : Unit) => SLResult.mk true 0) c ()).p
            < ((fun (_ : List ℝ) (_ : Unit) => SLResult.mk true 0) [(1:ℝ)/2] ()).p)) : ℕ) : ℝ)
        / ((20:ℕ) : ℝ))) := by
  have hgc : ∀ i, (((fun (_ m : ℕ) => List.replicate m [(1:ℝ)/2]) : ℕ → ℕ → List (List ℝ))
      i (20 / 10)).length = 20 / 10 := by
    intro i
    simp
  have hok : ∀ i ∈ List.range 10,
      ∀ c ∈ ((fun (_ m : ℕ) => List.replicate m [(1:ℝ)/2]) : ℕ → ℕ → List (List ℝ))
          i (20 / 10),
        ((fun (_ : List ℝ) (_ : Unit) => SLResult.mk true 0) c ()).OK = true := by
    intro i _ c _
    rfl
  exact ⟨hgc, hok,
    claim_C4_simulation_batches (fun _ m => List.replicate m [(1:ℝ)/2])
      (fun _ _ => SLResult.mk true 0) () [(1:ℝ)/2] 20 ((1:ℝ)/20) hgc hok⟩

/-- C6: a combiner result with OK = false is never silently skipped: the
per-region orchestration step turns it into an assertion failure (the
whole-run consequence: a successful run implies every processed region's
combiner call reported OK = true); and in the direct-combiner simulation a
single OK = false among the synthetic draws aborts the simulation with the
deliberate ZeroDivisionError instead of skipping the draw. -/
theorem claim_C6_combiner_failure_fatal :
    (∀ (S : Type) (sigmaO : List Bed → S) (dimS : S → ℕ)
        (slkO : List ℝ → S → SLResult) (tc : ℝ) (entry : String × Int × List Bed),
        (slkO (entry.2.2.map Bed.p) (sigmaO entry.2.2)).OK = false →
        processRegion sigmaO dimS slkO tc entry = .error .assertionError) ∧
    (∀ (S : Type) (sigmaO : List Bed → S) (dimS : S → ℕ)
        (slkO : List ℝ → S → SLResult) (regions : List Region) (pvals : List Bed)
        (nsims : ℕ) (tau : ℝ) (step : ℕ) (random : Bool) (results : List (List Val))
        (info : List (String × Int × List Bed)),
        region_p sigmaO dimS slkO regions pvals nsims tau step random = .ok results →
        _get_ps_in_regions regions pvals = .ok info →
        ∀ entry ∈ info,
          (slkO (entry.2.2.map Bed.p) (sigmaO entry.2.2)).OK = true) ∧
    (∀ (S : Type) (gc : ℕ → ℕ → List (List ℝ)) (slkO : List ℝ → S → SLResult)
        (sigma : S) (ps : List ℝ) (nsims : ℕ),
        (∃ i ∈ List.range 10, ∃ c ∈ gc i (nsims / 10), (slkO c sigma).OK = false) →
        sl_sim gc slkO sigma ps nsims = .error .zeroDivisionError) := by
  refine ⟨?_, ?_, ?_⟩
  · intro S sigmaO dimS slkO tc entry h
    exact processRegion_not_ok sigmaO dimS slkO tc entry h
  · intro S sigmaO dimS slkO regions pvals nsims tau step random results info
      hrun hinfo entry hentry
    obtain ⟨info', hinfo', hpa⟩ := region_p_ok_inv sigmaO dimS slkO regions pvals
      nsims tau step random results hrun
    rw [hinfo] at hinfo'
    cases hinfo'
    obtain ⟨hfor, _⟩ := processAll_ok_forall sigmaO dimS slkO _ info results hpa
    obtain ⟨row, hrow⟩ := hfor entry hentry
    exact (processRegion_ok_shape sigmaO dimS slkO _ entry row hrow).1
  · intro S gc slkO sigma ps nsims hbad
    rw [sl_sim_eq_fold]
    have htot : ∀ i, slCount slkO sigma ((slkO ps sigma).p) (gc i (nsims / 10))
        = .error .zeroDivisionError ∨
        ∃ k, slCount slkO sigma ((slkO ps sigma).p) (gc i (nsims / 10)) = .ok k := by
      intro i
      by_cases hAll : ∀ c ∈ gc i (nsims / 10), (slkO c sigma).OK = true
      · exact Or.inr ⟨_, slCount_ok slkO sigma _ _ hAll⟩
      · push_neg at hAll
        obtain ⟨c, hc, hcOK⟩ := hAll
        exact Or.inl (slCount_err slkO sigma _ _
          ⟨c, hc, Bool.eq_false_iff.mpr hcOK⟩)
    obtain ⟨i, hi, c, hc, hcf⟩ := hbad
    rw [slFold_err _ htot (List.range 10) 0
      ⟨i, hi, slCount_err slkO sigma _ _ ⟨c, hc, hcf⟩⟩]

theorem claim_C6_combiner_failure_fatal_witness :
    (((fun (_ : List ℝ) (_ : Unit) => SLResult.mk false 0)
        (("chr1\t5\t25", (20:ℤ), [demoBedA]).2.2.map Bed.p)
        ((fun (_ : List Bed) => ()) ("chr1\t5\t25", (20:ℤ), [demoBedA]).2.2)).OK
      = false) ∧
    (processRegion (fun _ : List Bed => ()) (fun _ => 1)
        (fun _ _ => SLResult.mk false 0) 0 ("chr1\t5\t25", (20:ℤ), [demoBedA])
      = .error .assertionError) ∧
    (∃ i ∈ List.range 10,
      ∃ c ∈ ((fun (_ _ : ℕ) => [[(1:ℝ)/2]]) : ℕ → ℕ → List (List ℝ)) i (20 / 10),
        ((fun (_ : List ℝ) (_ : Unit) => SLResult.mk false 0) c ()).OK = false) ∧
    (sl_sim (fun _ _ => [[(1:ℝ)/2]]) (fun (_ : List ℝ) (_ : Unit) => SLResult.mk false 0)
        () [(1:ℝ)/2] 20 = .error .zeroDivisionError) := by
  have hbad : ∃ i ∈ List.range 10,
      ∃ c ∈ ((fun (_ _ : ℕ) => [[(1:ℝ)/2]]) : ℕ → ℕ → List (List ℝ)) i (20 / 10),
        ((fun (_ : List ℝ) (_ : Unit) => SLResult.mk false 0) c ()).OK = false :=
    ⟨0, by simp, [(1:ℝ)/2], by simp, rfl⟩
  refine ⟨rfl, ?_, hbad, ?_⟩
  · exact claim_C6_combiner_failure_fatal.1 Unit (fun _ => ()) (fun _ => 1)
      (fun _ _ => SLResult.mk false 0) 0 ("chr1\t5\t25", (20:ℤ), [demoBedA]) rfl
  · exact claim_C6_combiner_failure_fatal.2.2 Unit (fun _ _ => [[(1:ℝ)/2]])
      (fun _ _ => SLResult.mk false 0) () [(1:ℝ)/2] 20 hbad

set_option maxRecDepth 8000 in
/-- C7: on a record stream whose chromosomes are in non-decreasing order
(the sorted-stream invariant of the SiteRecord data model; itertools.groupby
groups only consecutive records), the coverage estimator equals the sum
over the distinct chromosomes of the size of the union of that chromosome's
interval position sets, so overlaps count once: intervals [0,100) and
[50,150) on one chromosome total 150, not 200. -/
theorem claim_C7_coverage_union (pvals : List Bed)
    (hchain : List.Chain' (fun x y => x.chrom ≤ y.chrom) pvals) :
    get_total_coverage pvals = coverageByChromSpec pvals ∧
    get_total_coverage [⟨"chr1", 0, 100, (1:ℝ)/2⟩, ⟨"chr1", 50, 150, (1:ℝ)/2⟩]
      = 150 := by
  constructor
  · exact coverage_eq_aux pvals.length pvals le_rfl hchain
  · decide

theorem claim_C7_coverage_union_witness :
    List.Chain' (fun x y : Bed => x.chrom ≤ y.chrom)
      [⟨"chr1", 0, 100, (1:ℝ)/2⟩, ⟨"chr1", 50, 150, (1:ℝ)/2⟩] ∧
    (get_total_coverage [⟨"chr1", 0, 100, (1:ℝ)/2⟩, ⟨"chr1", 50, 150, (1:ℝ)/2⟩]
        = coverageByChromSpec
          [⟨"chr1", 0, 100, (1:ℝ)/2⟩, ⟨"chr1", 50, 150, (1:ℝ)/2⟩] ∧
     get_total_coverage [⟨"chr1", 0, 100, (1:ℝ)/2⟩, ⟨"chr1", 50, 150, (1:ℝ)/2⟩]
        = 150) := by
  have hc : List.Chain' (fun x y : Bed => x.chrom ≤ y.chrom)
      [⟨"chr1", 0, 100, (1:ℝ)/2⟩, ⟨"chr1", 50, 150, (1:ℝ)/2⟩] :=
    List.chain'_cons.mpr ⟨le_refl _, List.chain'_singleton _⟩
  exact ⟨hc, claim_C7_coverage_union _ hc⟩

/-- C8: the correlated sampler returns the transformed fresh draw whenever
Cholesky factorization of sigma succeeds (any positive fuel suffices), and,
because a failing factorization of the unchanged sigma fails on every
retry, a sigma whose factorization fails yields no result at any retry
bound: the fuel-indexed loop returns none for every fuel, i.e. the
unbounded source loop never terminates. -/
theorem claim_C8_cholesky_retry {nn mm : ℕ}
    (chol : Matrix (Fin nn) (Fin nn) ℝ → Option (Matrix (Fin nn) (Fin nn) ℝ))
    (pnorm qnorm : ℝ → ℝ) (sigma : Matrix (Fin nn) (Fin nn) ℝ)
    (draw : ℕ → Matrix (Fin nn) (Fin mm) ℝ) :
    (∀ L, chol sigma = some L → ∀ attempt fuel,
        gen_correlated chol pnorm qnorm sigma draw attempt (fuel + 1)
          = some ((L * (draw attempt).map qnorm).map pnorm)) ∧
    (chol sigma = none → ∀ attempt fuel,
        gen_correlated chol pnorm qnorm sigma draw attempt fuel = none) := by
  constructor
  · intro L hL attempt fuel
    simp only [gen_correlated, hL]
  · intro hnone attempt fuel
    induction fuel generalizing attempt with
    | zero => rfl
    | succ n ih =>
      simp only [gen_correlated, hnone]
      exact ih (attempt + 1)

theorem claim_C8_cholesky_retry_witness :
    ((fun _ : Matrix (Fin 1) (Fin 1) ℝ => some (1 : Matrix (Fin 1) (Fin 1) ℝ)) 1
      = some 1) ∧
    (gen_correlated (fun _ => some (1 : Matrix (Fin 1) (Fin 1) ℝ)) id id 1
        (fun _ => (1 : Matrix (Fin 1) (Fin 1) ℝ)) 0 1
      = some (((1 : Matrix (Fin 1) (Fin 1) ℝ)
          * ((1 : Matrix (Fin 1) (Fin 1) ℝ)).map id).map id)) ∧
    ((fun _ : Matrix (Fin 1) (Fin 1) ℝ =>
        (none : Option (Matrix (Fin 1) (Fin 1) ℝ))) 1 = none) ∧
    (gen_correlated (fun _ => (none : Option (Matrix (Fin 1) (Fin 1) ℝ))) id id 1
        (fun _ => (1 : Matrix (Fin 1) (Fin 1) ℝ)) 0 7 = none) :=
  ⟨rfl,
   (claim_C8_cholesky_retry (fun _ => some 1) id id 1 (fun _ => 1)).1 1 rfl 0 0,
   rfl,
   (claim_C8_cholesky_retry (fun _ => none) id id 1 (fun _ => 1)).2 rfl 0 7⟩

/-- C10: exhausting the record stream before the last region has been
matched — including a p-value stream with no records at all — makes the
matcher evaluate a while-loop condition against the None sentinel, so the
run fails with a TypeError rather than the input-contract assertion: with
an empty stream the first region's advance condition subscripts the
sentinel; a sentinel consumed before a region's processing begins gives
TypeError; and an advance loop that exhausts the stream before collection
begins gives TypeError as well. -/
theorem claim_C10_sentinel_type_error :
    (∀ regions : List Region, regions ≠ [] →
        _get_ps_in_regions regions [] = .error .typeError) ∧
    (∀ (r : Region) (rs : List Region) (rest : List Bed),
        regionsLoop (r :: rs) (none, rest) = .error .typeError) ∧
    (∀ (r : Region) (rs : List Region) (prow : Bed) (rest : List Bed),
        (advanceCursor r.chrom r.start prow rest).1 = none →
        regionsLoop (r :: rs) (some prow, rest) = .error .typeError) := by
  refine ⟨?_, ?_, ?_⟩
  · intro regions hne
    cases regions with
    | nil => exact absurd rfl hne
    | cons r rs => rfl
  · intro r rs rest
    rfl
  · intro r rs prow rest h
    have heq : advanceCursor r.chrom r.start prow rest
        = (none, (advanceCursor r.chrom r.start prow rest).2) := by
      rw [← h]
    simp only [regionsLoop]
    rw [heq]

theorem claim_C10_sentinel_type_error_witness :
    ([demoRegion1] ≠ ([] : List Region)) ∧
    (_get_ps_in_regions [demoRegion1] [] = .error .typeError) ∧
    (regionsLoop [demoRegion2] (none, [demoBedA]) = .error .typeError) ∧
    ((advanceCursor "zzz" 0 demoBedA []).1 = none) ∧
    (regionsLoop [⟨"z\t0\t9", "zzz", 0, 9⟩] (some demoBedA, [])
      = .error .typeError) := by
  refine ⟨by simp, ?_, ?_, ?_, ?_⟩
  · exact claim_C10_sentinel_type_error.1 [demoRegion1] (by simp)
  · exact claim_C10_sentinel_type_error.2.1 demoRegion2 [] [demoBedA]
  · with_unfolding_all rfl
  · exact claim_C10_sentinel_type_error.2.2 ⟨"z\t0\t9", "zzz", 0, 9⟩ [] demoBedA []
      (by with_unfolding_all rfl)

/-- C5 (amended): a region file with zero non-comment lines makes the run
exit before any output; a region collecting zero records fails
`assert prows`; and the trailing count assertion compares the number of
assignments against the number of ALL enumerated region lines (comment
lines included), a comparison that always holds whenever the matcher
returns — it does not compare against the number of non-comment lines. -/
theorem claim_C5_contract_violations :
    (∀ (S : Type) (sigmaO : List Bed → S) (dimS : S → ℕ)
        (slkO : List ℝ → S → SLResult) (regions : List Region) (pvals : List Bed)
        (nsims : ℕ) (tau : ℝ) (step : ℕ) (random : Bool),
        nonCommentCount regions = 0 →
        region_p sigmaO dimS slkO regions pvals nsims tau step random
          = .error .systemExit) ∧
    (∀ (r : Region) (rs : List Region) (prow : Bed) (rest : List Bed) (b : Bed)
        (brest : List Bed),
        advanceCursor r.chrom r.start prow rest = (some b, brest) →
        (collectRecords r.chrom r.stop b brest).1 = [] →
        regionsLoop (r :: rs) (some prow, rest) = .error .assertionError) ∧
    (∀ (regions : List Region) (pvals : List Bed)
        (info : List (String × Int × List Bed)),
        _get_ps_in_regions regions pvals = .ok info →
        info.length = regions.length) := by
  refine ⟨?_, ?_, ?_⟩
  · intro S sigmaO dimS slkO regions pvals nsims tau step random h
    unfold region_p
    rw [if_pos h]
  · intro r rs prow rest b brest hadv hcol
    simp only [regionsLoop, hadv]
    rw [if_pos (by rw [List.isEmpty_iff, hcol])]
  · intro regions pvals info h
    unfold _get_ps_in_regions at h
    cases regions with
    | nil => cases h
    | cons r rs =>
      rcases hrec : regionsLoop (r :: rs) (initCursor pvals) with e | info'
      · rw [hrec] at h; cases h
      · rw [hrec] at h
        dsimp only at h
        by_cases hlen : (r :: rs).length = info'.length
        · rw [if_pos hlen] at h
          cases h
          exact hlen.symm
        · rw [if_neg hlen] at h; cases h

theorem claim_C5_contract_violations_witness :
    (nonCommentCount [demoCommentRegion] = 0) ∧
    (region_p (fun _ : List Bed => ()) (fun _ => 1) (fun _ _ => SLResult.mk true 0)
        [demoCommentRegion] [demoCBed] 2000 ((1:ℝ)/20) 50 false
      = .error .systemExit) ∧
    (advanceCursor "chr1" 0 demoBedA [] = (some demoBedA, [])) ∧
    ((collectRecords "chr1" 3 demoBedA []).1 = []) ∧
    (regionsLoop [⟨"chr1\t0\t3", "chr1", 0, 3⟩] (some demoBedA, [])
      = .error .assertionError) ∧
    (_get_ps_in_regions [demoRegion1, demoRegion2] [demoBedA, demoBedB]
      = .ok demoInfo) ∧
    (demoInfo.length = [demoRegion1, demoRegion2].length) := by
  refine ⟨by with_unfolding_all rfl, ?_, by with_unfolding_all rfl,
    by with_unfolding_all rfl, ?_, by with_unfolding_all rfl, ?_⟩
  · exact claim_C5_contract_violations.1 Unit (fun _ => ()) (fun _ => 1)
      (fun _ _ => SLResult.mk true 0) [demoCommentRegion] [demoCBed]
      2000 ((1:ℝ)/20) 50 false (by with_unfolding_all rfl)
  · exact claim_C5_contract_violations.2.1 ⟨"chr1\t0\t3", "chr1", 0, 3⟩ []
      demoBedA [] demoBedA [] (by with_unfolding_all rfl)
      (by with_unfolding_all rfl)
  · exact claim_C5_contract_violations.2.2 [demoRegion1, demoRegion2]
      [demoBedA, demoBedB] demoInfo (by with_unfolding_all rfl)

/-- C5 counterexample: the claim's third violation does not hold as stated.
A run can complete with two assignments against one non-comment region line
and raise no assertion at all (the matcher compares the comment-like
chromosome of a record like any other string); and in the realizable
variant of the same region file, the mismatch scenario aborts with
TypeError — not with the claimed fatal assertion. -/
theorem claim_C5_counterexample :
    _get_ps_in_regions [demoCommentRegion, demoPlainRegion] [demoHashBed, demoCBed]
      = .ok [("#c\t0\t10", 10, [demoHashBed]), ("c\t0\t10", 10, [demoCBed])] ∧
    nonCommentCount [demoCommentRegion, demoPlainRegion] = 1 ∧
    _get_ps_in_regions [demoCommentRegion, demoPlainRegion] [demoCBed]
      = .error .typeError :=
  ⟨by with_unfolding_all rfl, by with_unfolding_all rfl,
   by with_unfolding_all rfl⟩

/-- The single result row of the demonstration `region_p` run: exactly the
region source line, the combined p and the Sidak-corrected p. -/
noncomputable def demoRow1 : List Val :=
  [Val.str "chr1\t5\t25", Val.num 0,
   Val.num (sidak 0 ((20:ℤ) : ℝ) ((get_total_coverage [demoBedA] : ℕ) : ℝ))]

/-- C9 (amended): Monte-Carlo re-validation is not selectable — the
corroboration block of the loop body is an inert string literal, its 0.1
cutoff is hard-coded inside that inert block, and the simulation parameters
are accepted but unused — so on every successful run each emitted result
row consists of exactly the region source line, the combined p and the
Sidak-corrected p, with no simulation field attached under any
configuration. -/
theorem claim_C9_no_simulation_field {S : Type} (sigmaO : List Bed → S)
    (dimS : S → ℕ) (slkO : List ℝ → S → SLResult) (regions : List Region)
    (pvals : List Bed) (nsims : ℕ) (tau : ℝ) (step : ℕ) (random : Bool)
    (results : List (List Val))
    (h : region_p sigmaO dimS slkO regions pvals nsims tau step random
      = .ok results) :
    ∀ row ∈ results, ∃ l a b, row = [Val.str l, Val.num a, Val.num b] := by
  obtain ⟨info, hinfo, hpa⟩ := region_p_ok_inv sigmaO dimS slkO regions pvals
    nsims tau step random results h
  obtain ⟨_, hback⟩ := processAll_ok_forall sigmaO dimS slkO _ info results hpa
  intro row hr
  obtain ⟨e, _, hrow⟩ := hback row hr
  obtain ⟨_, hshape⟩ := processRegion_ok_shape sigmaO dimS slkO _ e row hrow
  exact ⟨e.1, _, _, hshape⟩

theorem claim_C9_no_simulation_field_witness :
    (region_p (fun _ : List Bed => ()) (fun _ => 1) (fun _ _ => SLResult.mk true 0)
        [demoRegion1] [demoBedA] 2000 ((1:ℝ)/20) 50 false = .ok [demoRow1]) ∧
    (∀ row ∈ [demoRow1], ∃ l a b, row = [Val.str l, Val.num a, Val.num b]) :=
  ⟨by with_unfolding_all rfl,
   claim_C9_no_simulation_field (fun _ : List Bed => ()) (fun _ => 1)
     (fun _ _ => SLResult.mk true 0) [demoRegion1] [demoBedA] 2000 ((1:ℝ)/20)
     50 false [demoRow1] (by with_unfolding_all rfl)⟩

/-- C9 counterexample: a run whose single region has its Sidak-corrected p
(here 0) below the 0.1 cutoff still emits a three-cell row with no
Monte-Carlo field: the re-validation step cannot be enabled by any of the
accepted parameters. -/
theorem claim_C9_counterexample :
    region_p (fun _ : List Bed => ()) (fun _ => 1) (fun _ _ => SLResult.mk true 0)
        [demoRegion1] [demoBedA] 2000 ((1:ℝ)/20) 50 false = .ok [demoRow1] ∧
    sidak 0 ((20:ℤ) : ℝ) ((get_total_coverage [demoBedA] : ℕ) : ℝ) < (1:ℝ)/10 ∧
    demoRow1.length = 3 := by
  refine ⟨by with_unfolding_all rfl, ?_, rfl⟩
  rw [sidak_zero]
  norm_num

end Cpv
